import Mathlib

/-!
# Verification of the obsidian-github sync core

Shallow embedding of the sync engine of the `obsidian-github` plugin
(`src/services/syncService.ts`, `src/services/githubService.ts`,
`src/utils/fileUtils.ts`, `src/utils/diffUtils.ts`) together with proofs
about the reconciliation, hashing, glob matching, diffing, path mapping
and batch-commit logic.

Machine integers are modelled as `Nat` with explicit reduction modulo
`2^32` where JavaScript's 32-bit semantics matter.  JavaScript strings
are modelled as Lean `String`/`List Char`; `undefined`/`null` become
`Option`.
-/

namespace ObsidianGitHub

set_option maxRecDepth 200000

/-! ## Basic numeric helpers (32-bit arithmetic as used by JS) -/

/-- Truncate to an unsigned 32-bit value. -/
def w32 (n : Nat) : Nat := n % 4294967296

/-- 32-bit left rotation (operands assumed < 2^32). -/
def rotl32 (n k : Nat) : Nat := w32 (n <<< k) ||| (n >>> (32 - k))

/-- Lowercase hexadecimal digit. -/
def hexDigit (n : Nat) : Char :=
  if n < 10 then Char.ofNat (48 + n) else Char.ofNat (87 + n)

/-- Two lowercase hex digits of a byte. -/
def byteHex (b : Nat) : List Char := [hexDigit (b / 16), hexDigit (b % 16)]

/-- Hex digits of `n` (no leading zeros; `fuel` bounds the digit count). -/
def hexOfNat : Nat → Nat → List Char
  | 0, _ => []
  | fuel + 1, n =>
    if n < 16 then [hexDigit n] else hexOfNat fuel (n / 16) ++ [hexDigit (n % 16)]

/-! ## UTF-8 encoding (JS `TextEncoder`) -/

/-- UTF-8 bytes of a single code point. -/
def utf8Encode (c : Nat) : List Nat :=
  if c < 128 then [c]
  else if c < 2048 then [192 + c / 64, 128 + c % 64]
  else if c < 65536 then [224 + c / 4096, 128 + (c / 64) % 64, 128 + c % 64]
  else [240 + c / 262144, 128 + (c / 4096) % 64, 128 + (c / 64) % 64, 128 + c % 64]

/-- UTF-8 bytes of a string (`new TextEncoder().encode(s)`). -/
def strUtf8 (s : String) : List Nat := s.data.flatMap (fun ch => utf8Encode ch.toNat)

/-! ## SHA-1 (`crypto.subtle.digest('SHA-1', …)`) -/

/-- Split the byte stream into 64-byte chunks (`fuel` ≥ length). -/
def chunks64 : Nat → List Nat → List (List Nat)
  | 0, _ => []
  | _, [] => []
  | fuel + 1, l => l.take 64 :: chunks64 fuel (l.drop 64)

/-- Assemble big-endian 32-bit words from groups of four bytes. -/
def words16 : List Nat → List Nat
  | b0 :: b1 :: b2 :: b3 :: rest => (((b0 * 256 + b1) * 256 + b2) * 256 + b3) :: words16 rest
  | _ => []

/-- Extend the 16 message words to 80 (`count` more words onto `acc`). -/
def sha1Extend (acc : List Nat) : Nat → List Nat
  | 0 => acc
  | count + 1 =>
    let i := acc.length
    let word := rotl32
      ((acc.getD (i - 3) 0) ^^^ (acc.getD (i - 8) 0) ^^^
       (acc.getD (i - 14) 0) ^^^ (acc.getD (i - 16) 0)) 1
    sha1Extend (acc ++ [word]) count

/-- The 80 compression rounds, starting at round index `i`. -/
def sha1Rounds : Nat → List Nat → Nat × Nat × Nat × Nat × Nat → Nat × Nat × Nat × Nat × Nat
  | _, [], st => st
  | i, word :: ws, (a, b, c, d, e) =>
    let f :=
      if i < 20 then (b &&& c) ||| ((b ^^^ 4294967295) &&& d)
      else if i < 40 then b ^^^ c ^^^ d
      else if i < 60 then (b &&& c) ||| (b &&& d) ||| (c &&& d)
      else b ^^^ c ^^^ d
    let k :=
      if i < 20 then 1518500249
      else if i < 40 then 1859775393
      else if i < 60 then 2400959708
      else 3395469782
    let temp := w32 (rotl32 a 5 + f + e + k + word)
    sha1Rounds (i + 1) ws (temp, a, rotl32 b 30, c, d)

/-- One SHA-1 chunk compression. -/
def sha1Compress (h : Nat × Nat × Nat × Nat × Nat) (chunk : List Nat) :
    Nat × Nat × Nat × Nat × Nat :=
  let ws := sha1Extend (words16 chunk) 64
  let (h0, h1, h2, h3, h4) := h
  let (a, b, c, d, e) := sha1Rounds 0 ws (h0, h1, h2, h3, h4)
  (w32 (h0 + a), w32 (h1 + b), w32 (h2 + c), w32 (h3 + d), w32 (h4 + e))

/-- Big-endian bytes of a 32-bit word. -/
def wordBytes (n : Nat) : List Nat :=
  [(n >>> 24) % 256, (n >>> 16) % 256, (n >>> 8) % 256, n % 256]

/-- SHA-1 digest (20 bytes) of a byte sequence. -/
def sha1Bytes (msg : List Nat) : List Nat :=
  let len := msg.length
  let padZeros := (119 - len % 64) % 64
  let bitLen := len * 8
  let lenBytes := [(bitLen >>> 56) % 256, (bitLen >>> 48) % 256, (bitLen >>> 40) % 256,
                   (bitLen >>> 32) % 256, (bitLen >>> 24) % 256, (bitLen >>> 16) % 256,
                   (bitLen >>> 8) % 256, bitLen % 256]
  let padded := msg ++ [128] ++ List.replicate padZeros 0 ++ lenBytes
  let chunks := chunks64 padded.length padded
  let (h0, h1, h2, h3, h4) :=
    chunks.foldl sha1Compress (1732584193, 4023233417, 2562383102, 271733878, 3285377520)
  wordBytes h0 ++ wordBytes h1 ++ wordBytes h2 ++ wordBytes h3 ++ wordBytes h4

/-- SHA-1 digest as a lowercase hex string. -/
def sha1Hex (msg : List Nat) : String := ⟨(sha1Bytes msg).flatMap byteHex⟩

/-! ## `fileUtils.ts`: line-ending normalization and the git blob hash -/

/-- `content.replace(/\r\n/g, '\n').replace(/\r/g, '\n')`: every CRLF pair
    becomes one LF and every remaining lone CR becomes LF. -/
def normalizeEol : List Char → List Char
  | [] => []
  | '\r' :: '\n' :: rest => '\n' :: normalizeEol rest
  | '\r' :: rest => '\n' :: normalizeEol rest
  | c :: rest => c :: normalizeEol rest

/-- `computeGitBlobSha`: SHA-1 of `"blob " + byteLength + "\0" + content`
    over the UTF-8 bytes of the line-ending-normalized content. -/
def computeGitBlobSha (content : String) : String :=
  let normalizedContent : String := ⟨normalizeEol content.data⟩
  let contentBytes := strUtf8 normalizedContent
  let header := "blob " ++ Nat.repr contentBytes.length ++ "\x00"
  sha1Hex (strUtf8 header ++ contentBytes)

/-! ## `fileUtils.ts`: the djb2 content hash

`hashContent` runs JavaScript's signed 32-bit `<<`, `+`, `^` and finally
`>>> 0`; tracking the unsigned 32-bit pattern, each step is
`(((h <<< 5) % 2^32 + h) % 2^32) ^^^ code`. -/

/-- One djb2 step on the unsigned 32-bit pattern. -/
def djb2Step (h code : Nat) : Nat := (w32 (h <<< 5) + h) % 4294967296 ^^^ code

/-- `hashContent`: djb2 over the UTF-16 code units, rendered as 8 hex
    digits (`(hash >>> 0).toString(16).padStart(8, '0')`). -/
def hashContent (s : String) : String :=
  let h := s.data.foldl (fun h c => djb2Step h c.toNat) 5381
  let hx := hexOfNat 8 h
  ⟨List.replicate (8 - hx.length) '0' ++ hx⟩

/-! ## `fileUtils.ts`: path normalization -/

/-- Collapse runs of `/` to a single `/` (`replace(/\/+/g, '/')`). -/
def collapseSlashes : List Char → List Char
  | [] => []
  | [c] => [c]
  | a :: b :: rest =>
    if a = '/' ∧ b = '/' then collapseSlashes (b :: rest)
    else a :: collapseSlashes (b :: rest)

/-- Remove one leading slash. -/
def stripLeadingSlash : List Char → List Char
  | [] => []
  | c :: rest => if c = '/' then rest else c :: rest

/-- Remove one trailing slash. -/
def stripTrailingSlash (l : List Char) : List Char :=
  if l.getLast? = some '/' then l.dropLast else l

/-- `normalizePath`: backslashes to `/`, collapse repeated `/`, strip one
    leading and one trailing `/`. -/
def normalizeChars (l : List Char) : List Char :=
  stripTrailingSlash (stripLeadingSlash
    (collapseSlashes (l.map (fun c => if c = '\\' then '/' else c))))

/-- `normalizePath` on strings. -/
def normalizePath (s : String) : String := ⟨normalizeChars s.data⟩

/-! ## `fileUtils.ts`: glob-style ignore-pattern matching

`matchPattern` escapes every regex metacharacter of the pattern, then turns
`**` into `.*`, `*` into `[^/]*` and `?` into `[^/]`, and tests the anchored
regex.  The generated regexes consist only of literals and those three
classes, so we embed the pattern as a token list and the anchored regex
test as a backtracking matcher over it.  (The embedding assumes the pattern
contains no literal brace, which the source routes through its `{{GLOBSTAR}}`
placeholder.) -/

inductive GlobTok where
  | lit (c : Char)
  | star
  | qmark
  | globstar
deriving DecidableEq, Repr

/-- Tokenize a glob pattern; `**` is consumed greedily left-to-right as in
    `replace(/\*\*/g, …)`. -/
def globTokens : List Char → List GlobTok
  | [] => []
  | '*' :: '*' :: rest => GlobTok.globstar :: globTokens rest
  | '*' :: rest => GlobTok.star :: globTokens rest
  | '?' :: rest => GlobTok.qmark :: globTokens rest
  | c :: rest => GlobTok.lit c :: globTokens rest

/-- Anchored regex test for the generated pattern: `[^/]*` for `*`, `[^/]`
    for `?`, `.*` for `**`, literals otherwise.  `fuel` bounds the
    backtracking depth (tokens + characters suffice). -/
def globMatch : Nat → List GlobTok → List Char → Bool
  | 0, _, _ => false
  | _ + 1, [], s => s.isEmpty
  | fuel + 1, GlobTok.lit c :: ts, s =>
    match s with
    | [] => false
    | d :: ds => c == d && globMatch fuel ts ds
  | fuel + 1, GlobTok.qmark :: ts, s =>
    match s with
    | [] => false
    | d :: ds => d != '/' && globMatch fuel ts ds
  | fuel + 1, GlobTok.star :: ts, s =>
    globMatch fuel ts s ||
      match s with
      | [] => false
      | d :: ds => d != '/' && globMatch fuel (GlobTok.star :: ts) ds
  | fuel + 1, GlobTok.globstar :: ts, s =>
    globMatch fuel ts s ||
      match s with
      | [] => false
      | _ :: ds => globMatch fuel (GlobTok.globstar :: ts) ds

/-- `matchPattern(path, pattern)`. -/
def matchPattern (path pattern : List Char) : Bool :=
  let toks := globTokens pattern
  globMatch (toks.length + path.length + 1) toks path

/-- `matchesIgnorePattern(path, patterns)`: true if the normalized path
    matches any normalized pattern. -/
def matchesIgnorePattern (path : String) (patterns : List String) : Bool :=
  patterns.any (fun pat => matchPattern (normalizeChars path.data) (normalizeChars pat.data))

/-! ## `diffUtils.ts`: LCS line diff -/

inductive DiffLineType where
  | unchanged
  | added
  | removed
  | context
deriving DecidableEq, Repr

structure DiffLine where
  type : DiffLineType
  content : String
  oldLineNumber : Option Nat
  newLineNumber : Option Nat
deriving DecidableEq, Repr

structure DiffHunk where
  oldStart : Nat
  oldLines : Nat
  newStart : Nat
  newLines : Nat
  lines : List DiffLine
deriving DecidableEq, Repr

structure DiffResult where
  oldContent : String
  newContent : String
  hunks : List DiffHunk
  additions : Nat
  deletions : Nat
  hasChanges : Bool
deriving Repr

/-- `content.split('\n')` (an empty string yields one empty line). -/
def splitNl : List Char → List (List Char)
  | [] => [[]]
  | c :: rest =>
    if c = '\n' then [] :: splitNl rest
    else
      match splitNl rest with
      | [] => [[c]]
      | h :: t => (c :: h) :: t

/-- Lines of a string. -/
def splitLines (s : String) : List String := (splitNl s.data).map (⟨·⟩)

/-- `computeLCS` builds `dp[i][j]` = LCS length of the first `i` old lines
    and `j` new lines; here the table entry is computed by the same
    recurrence (`fuel ≥ i + j` suffices). -/
def lcsFuel (oldL newL : List String) : Nat → Nat → Nat → Nat
  | 0, _, _ => 0
  | fuel + 1, i, j =>
    if i = 0 ∨ j = 0 then 0
    else if oldL.getD (i - 1) "" = newL.getD (j - 1) "" then
      lcsFuel oldL newL fuel (i - 1) (j - 1) + 1
    else
      max (lcsFuel oldL newL fuel (i - 1) j) (lcsFuel oldL newL fuel i (j - 1))

/-- The dp table of `computeLCS` as a function. -/
def lcsDp (oldL newL : List String) (i j : Nat) : Nat := lcsFuel oldL newL (i + j) i j

/-- `backtrackDiff`'s while loop; each produced line is prepended in the
    source (`unshift`), i.e. appended to the recursive result here.
    `fuel ≥ i + j` covers every iteration. -/
def backtrackGo (dp : Nat → Nat → Nat) (oldL newL : List String) :
    Nat → Nat → Nat → Nat → Nat → List DiffLine
  | 0, _, _, _, _ => []
  | fuel + 1, i, j, oldLine, newLine =>
    if i = 0 ∧ j = 0 then []
    else if 0 < i ∧ 0 < j ∧ oldL.getD (i - 1) "" = newL.getD (j - 1) "" then
      backtrackGo dp oldL newL fuel (i - 1) (j - 1) (oldLine - 1) (newLine - 1) ++
        [⟨DiffLineType.unchanged, oldL.getD (i - 1) "", some oldLine, some newLine⟩]
    else if 0 < j ∧ (i = 0 ∨ dp (i - 1) j ≤ dp i (j - 1)) then
      backtrackGo dp oldL newL fuel i (j - 1) oldLine (newLine - 1) ++
        [⟨DiffLineType.added, newL.getD (j - 1) "", none, some newLine⟩]
    else if 0 < i then
      backtrackGo dp oldL newL fuel (i - 1) j (oldLine - 1) newLine ++
        [⟨DiffLineType.removed, oldL.getD (i - 1) "", some oldLine, none⟩]
    else []

/-- `backtrackDiff(dp, oldLines, newLines)`. -/
def backtrackDiff (dp : Nat → Nat → Nat) (oldL newL : List String) : List DiffLine :=
  backtrackGo dp oldL newL (oldL.length + newL.length) oldL.length newL.length
    oldL.length newL.length

/-- JS `x || 1` on a nullable line number (0 and null are falsy). -/
def jsOrOne (o : Option Nat) : Nat :=
  match o with
  | some n => if n = 0 then 1 else n
  | none => 1

/-- JS `slice(-n)`: the last `n` elements. -/
def sliceLast (n : Nat) (l : List DiffLine) : List DiffLine := l.drop (l.length - n)

/-- Mutable state of `createHunks`'s loop. -/
structure HunkState where
  hunks : List DiffHunk
  currentHunk : Option DiffHunk
  unchangedBuffer : List DiffLine

/-- One iteration of `createHunks`'s for-loop. -/
def hunkStep (contextLines : Nat) (st : HunkState) (line : DiffLine) : HunkState :=
  if line.type = DiffLineType.unchanged then
    let buf := st.unchangedBuffer ++ [line]
    match st.currentHunk with
    | some h =>
      if buf.length > contextLines * 2 then
        let ctx :=
          (buf.take (min contextLines buf.length)).map
            (fun l => { l with type := DiffLineType.context })
        let closed : DiffHunk := { h with lines := h.lines ++ ctx }
        { hunks := st.hunks ++ [closed], currentHunk := none,
          unchangedBuffer := sliceLast contextLines buf }
      else
        { st with unchangedBuffer := buf }
    | none => { st with unchangedBuffer := buf }
  else
    match st.currentHunk with
    | none =>
      let leadingContext := sliceLast contextLines st.unchangedBuffer
      let firstOldLine :=
        match leadingContext.head? with
        | some l => jsOrOne l.oldLineNumber
        | none => jsOrOne line.oldLineNumber
      let firstNewLine :=
        match leadingContext.head? with
        | some l => jsOrOne l.newLineNumber
        | none => jsOrOne line.newLineNumber
      let h : DiffHunk :=
        { oldStart := firstOldLine, oldLines := 0, newStart := firstNewLine, newLines := 0,
          lines := leadingContext.map (fun l => { l with type := DiffLineType.context }) ++
            [line] }
      { hunks := st.hunks, currentHunk := some h, unchangedBuffer := [] }
    | some h =>
      let h' :=
        { h with lines := h.lines ++
            st.unchangedBuffer.map (fun l => { l with type := DiffLineType.context }) ++
            [line] }
      { hunks := st.hunks, currentHunk := some h', unchangedBuffer := [] }

/-- Close the trailing hunk, as after `createHunks`'s loop. -/
def finalizeHunks (contextLines : Nat) (st : HunkState) : List DiffHunk :=
  match st.currentHunk with
  | some h =>
    let ctx :=
      (st.unchangedBuffer.take (min contextLines st.unchangedBuffer.length)).map
        (fun l => { l with type := DiffLineType.context })
    st.hunks ++ [{ h with lines := h.lines ++ ctx }]
  | none => st.hunks

/-- The final pass recomputing `oldLines`/`newLines` of each hunk. -/
def recountHunk (h : DiffHunk) : DiffHunk :=
  { h with
    oldLines := (h.lines.filter (fun l => l.type ≠ DiffLineType.added)).length,
    newLines := (h.lines.filter (fun l => l.type ≠ DiffLineType.removed)).length }

/-- `createHunks(lines, contextLines)`. -/
def createHunks (lines : List DiffLine) (contextLines : Nat) : List DiffHunk :=
  (finalizeHunks contextLines (lines.foldl (hunkStep contextLines) ⟨[], none, []⟩)).map
    recountHunk

/-- `computeDiff(oldContent, newContent)`. -/
def computeDiff (oldContent newContent : String) : DiffResult :=
  let oldLines := splitLines oldContent
  let newLines := splitLines newContent
  let dp := lcsDp oldLines newLines
  let diffLines := backtrackDiff dp oldLines newLines
  let hunks := createHunks diffLines 3
  let additions := (diffLines.filter (fun l => l.type = DiffLineType.added)).length
  let deletions := (diffLines.filter (fun l => l.type = DiffLineType.removed)).length
  { oldContent := oldContent, newContent := newContent, hunks := hunks,
    additions := additions, deletions := deletions,
    hasChanges := additions > 0 || deletions > 0 }

/-- `getAllDiffLines(diff)`: all lines of all hunks. -/
def getAllDiffLines (diff : DiffResult) : List DiffLine :=
  diff.hunks.flatMap (fun h => h.lines)

/-! ## `syncService.ts`: data model -/

inductive FileChangeStatus where
  | added
  | modified
  | deleted
  | unchanged
  | conflict
  | renamed
deriving DecidableEq, Repr

structure FileSyncState where
  path : String
  localHash : Option String
  remoteHash : Option String
  remoteSha : Option String
  status : FileChangeStatus
  localModified : Option Nat
  remoteModified : Option String
deriving DecidableEq, Repr

structure LocalFileEntry where
  path : String
  hash : String
  modified : Nat
  size : Nat
  isBinary : Bool
deriving DecidableEq, Repr

structure RemoteFileEntry where
  path : String
  sha : String
  size : Option Nat
deriving DecidableEq, Repr

inductive FileAction where
  | pulled
  | pushed
  | deletedLocal
  | deletedRemote
  | conflictAction
  | skipped
deriving DecidableEq, Repr

structure FileSyncResult where
  path : String
  action : FileAction
  success : Bool
  error : Option String
deriving DecidableEq, Repr

structure SyncResult where
  success : Bool
  filesProcessed : Nat
  filesPulled : Nat
  filesPushed : Nat
  filesDeleted : Nat
  conflicts : List String
  errors : List String
  commitSha : Option String
deriving DecidableEq, Repr

/-- `PersistedSyncState`; the two records are association maps. -/
structure PersistedSyncState where
  lastSyncTime : Nat
  lastCommitSha : String
  fileHashes : List (String × String)
  fileShas : List (String × String)
deriving DecidableEq, Repr

inductive SyncDirection where
  | pull
  | push
  | sync
deriving DecidableEq, Repr

/-! JS truthiness helpers: `undefined` and the empty string are falsy, the
number 0 is falsy. -/

/-- Truthiness of a possibly-undefined string. -/
def truthyStr : Option String → Bool
  | some s => s ≠ ""
  | none => false

/-- `x?.field || null` for strings. -/
def jsOrNullStr : Option String → Option String
  | some s => if s = "" then none else some s
  | none => none

/-- `x?.field || null` for numbers. -/
def jsOrNullNat : Option Nat → Option Nat
  | some n => if n = 0 then none else some n
  | none => none

/-- `last ? current !== last : true` (note `""` is falsy). -/
def changedSince (current : String) (last : Option String) : Bool :=
  match last with
  | some s => if s = "" then true else current ≠ s
  | none => true

/-! ## `syncService.ts`: `compareIndexes` -/

/-- JS `Set` iteration order: first occurrence kept. -/
def dedupKeepFirst (seen : List String) : List String → List String
  | [] => []
  | x :: xs =>
    if seen.contains x then dedupKeepFirst seen xs
    else x :: dedupKeepFirst (x :: seen) xs

/-- The loop body of `compareIndexes` for one path (`none` for the
    unreachable neither-side case, which `continue`s). -/
def syncStateFor (localIndex : List (String × LocalFileEntry))
    (remoteIndex : List (String × RemoteFileEntry))
    (lastSyncState : Option PersistedSyncState) (path : String) : Option FileSyncState :=
  let localE := localIndex.lookup path
  let remote := remoteIndex.lookup path
  let lastHash := lastSyncState.bind (fun s => s.fileHashes.lookup path)
  let lastSha := lastSyncState.bind (fun s => s.fileShas.lookup path)
  let status? : Option FileChangeStatus :=
    match localE, remote with
    | some l, some r =>
      let localChanged := changedSince l.hash lastHash
      let remoteChanged := changedSince r.sha lastSha
      some (if localChanged && remoteChanged then FileChangeStatus.conflict
        else if localChanged then FileChangeStatus.modified
        else if remoteChanged then FileChangeStatus.modified
        else FileChangeStatus.unchanged)
    | some _, none =>
      some (if truthyStr lastSha then FileChangeStatus.deleted else FileChangeStatus.added)
    | none, some _ =>
      some (if truthyStr lastHash then FileChangeStatus.deleted else FileChangeStatus.added)
    | none, none => none
  status?.map (fun status =>
    { path := path
      localHash := jsOrNullStr (localE.map (fun l => l.hash))
      remoteHash := jsOrNullStr (remote.map (fun r => r.sha))
      remoteSha := jsOrNullStr (remote.map (fun r => r.sha))
      status := status
      localModified := jsOrNullNat (localE.map (fun l => l.modified))
      remoteModified := none })

/-- `compareIndexes(localIndex, remoteIndex, lastSyncState)`: one
    `FileSyncState` per path of the union of both key sets. -/
def compareIndexes (localIndex : List (String × LocalFileEntry))
    (remoteIndex : List (String × RemoteFileEntry))
    (lastSyncState : Option PersistedSyncState) : List FileSyncState :=
  let allPaths :=
    dedupKeepFirst [] (localIndex.map (fun p => p.1) ++ remoteIndex.map (fun p => p.1))
  allPaths.filterMap (syncStateFor localIndex remoteIndex lastSyncState)

/-! ## `syncService.ts`: path mapping -/

/-- `toRemotePath`: prepend the subfolder prefix and normalize. -/
def toRemotePath (subfolderPath localPath : String) : String :=
  if subfolderPath ≠ "" then normalizePath (subfolderPath ++ "/" ++ localPath)
  else localPath

/-- `toLocalPath`: strip the subfolder prefix when present. -/
def toLocalPath (subfolderPath remotePath : String) : String :=
  if subfolderPath ≠ "" ∧ (subfolderPath ++ "/").data.isPrefixOf remotePath.data then
    ⟨remotePath.data.drop (subfolderPath.data.length + 1)⟩
  else remotePath

/-! ## `syncService.ts`: partitioning in `sync` -/

/-- The `toPush` filter predicate of `sync`. -/
def toPushFilter (direction : SyncDirection)
    (localIndex : List (String × LocalFileEntry))
    (remoteIndex : List (String × RemoteFileEntry))
    (lastSyncState : Option PersistedSyncState) (c : FileSyncState) : Bool :=
  if c.status = FileChangeStatus.conflict then false
  else if direction = SyncDirection.pull then false
  else
    match localIndex.lookup c.path, remoteIndex.lookup c.path with
    | none, some _ => false
    | some _, none => true
    | localE, _ =>
      match lastSyncState.bind (fun s => s.fileHashes.lookup c.path), localE with
      | some s, some l => if s = "" then false else decide (l.hash ≠ s)
      | _, _ => false

/-- The `toPull` filter predicate of `sync`. -/
def toPullFilter (direction : SyncDirection)
    (localIndex : List (String × LocalFileEntry))
    (remoteIndex : List (String × RemoteFileEntry))
    (lastSyncState : Option PersistedSyncState) (c : FileSyncState) : Bool :=
  if c.status = FileChangeStatus.conflict then false
  else if direction = SyncDirection.push then false
  else
    match localIndex.lookup c.path, remoteIndex.lookup c.path with
    | some _, none => false
    | none, some _ => true
    | _, remote =>
      match lastSyncState.bind (fun s => s.fileShas.lookup c.path), remote with
      | some s, some r => if s = "" then false else decide (r.sha ≠ s)
      | _, _ => false

/-- `r.error || 'Unknown error'`. -/
def errorOrUnknown (o : Option String) : String :=
  match o with
  | some s => if s = "" then "Unknown error" else s
  | none => "Unknown error"

/-- The result assembly of `sync` (lines 512–583): comparison, optional
    path filter, partitioning, pull/push execution and count aggregation.
    The I/O outcomes of `pullChanges`/`pushChanges` are abstract parameters
    `pullRun`/`pushRun`. -/
def syncAssemble (direction : SyncDirection)
    (localIndex : List (String × LocalFileEntry))
    (remoteIndex : List (String × RemoteFileEntry))
    (lastSyncState : Option PersistedSyncState)
    (paths : Option (List String))
    (pullRun : List FileSyncState → List FileSyncResult)
    (pushRun : List FileSyncState → SyncResult) : SyncResult :=
  let changes0 := compareIndexes localIndex remoteIndex lastSyncState
  let changes : List FileSyncState :=
    match paths with
    | some ps => if ps.length > 0 then changes0.filter (fun c => ps.contains c.path) else changes0
    | none => changes0
  let conflicts := changes.filter (fun c => c.status = FileChangeStatus.conflict)
  let toPull := changes.filter (toPullFilter direction localIndex remoteIndex lastSyncState)
  let toPush := changes.filter (toPushFilter direction localIndex remoteIndex lastSyncState)
  let base : SyncResult :=
    { success := true, filesProcessed := 0, filesPulled := 0, filesPushed := 0,
      filesDeleted := 0, conflicts := conflicts.map (fun c => c.path), errors := [],
      commitSha := none }
  let afterPull :=
    if toPull.length > 0 ∧ direction ≠ SyncDirection.push then
      let pullResults := pullRun toPull
      { base with
        filesPulled :=
          (pullResults.filter (fun r => r.success && r.action = FileAction.pulled)).length
        filesDeleted := base.filesDeleted +
          (pullResults.filter (fun r => r.success && r.action = FileAction.deletedLocal)).length
        errors := base.errors ++
          (pullResults.filter (fun r => !r.success)).map (fun r => errorOrUnknown r.error) }
    else base
  let afterPush :=
    if toPush.length > 0 ∧ direction ≠ SyncDirection.pull then
      let pushResult := pushRun toPush
      { afterPull with
        filesPushed := pushResult.filesPushed
        filesDeleted := afterPull.filesDeleted + pushResult.filesDeleted
        errors := afterPull.errors ++ pushResult.errors
        commitSha := pushResult.commitSha
        success := afterPull.success && pushResult.success }
    else afterPull
  { afterPush with
    filesProcessed := afterPush.filesPulled + afterPush.filesPushed + afterPush.filesDeleted }

/-! ## `githubService.ts`: `createBatchCommit`

The Git Data transport is abstracted into deterministic call results:
`refSha` is `getRef`, `commitTree` is `getCommit(...).tree.sha`, `blobSha`
is `createBlob`, `treeSha` is `createTree` on a base tree, `commitSha` is
`createCommit(message, tree, parent)` and `updateRef` returns the thrown
error message, if any.  One `GitApi` value describes the remote as seen by
one attempt; the loop gets a fresh one per attempt. -/

inductive BatchAction where
  | create
  | update
  | delete
deriving DecidableEq, Repr

structure BatchFileChange where
  path : String
  action : BatchAction
  content : Option String
  encoding : Option String
deriving DecidableEq, Repr

structure TreeItem where
  path : String
  mode : String
  type : String
  sha : Option String
deriving DecidableEq, Repr

structure GitApi where
  refSha : String → String
  commitTree : String → String
  blobSha : String → String
  treeSha : String → List TreeItem → String
  commitSha : String → String → String → String
  updateRef : String → String → Option String

structure CommitResult where
  commitSha : String
  treeSha : String
deriving DecidableEq, Repr

/-- Outcome of one loop iteration's try block. -/
structure AttemptResult where
  outcome : Except String CommitResult
  createdCommits : List String
deriving Repr

/-- The per-change tree entries (deletions get `sha: null`). -/
def batchTreeItems (api : GitApi) (changes : List BatchFileChange) : List TreeItem :=
  changes.map (fun change =>
    match change.action with
    | BatchAction.delete =>
      { path := change.path, mode := "100644", type := "blob", sha := none }
    | _ =>
      { path := change.path, mode := "100644", type := "blob",
        sha := some (api.blobSha (change.content.getD "")) })

/-- One iteration of `createBatchCommit`'s try block. -/
def batchAttempt (api : GitApi) (branch message : String)
    (changes : List BatchFileChange) : AttemptResult :=
  let currentCommitSha := api.refSha branch
  let baseTreeSha := api.commitTree currentCommitSha
  let newTreeSha := api.treeSha baseTreeSha (batchTreeItems api changes)
  if newTreeSha = baseTreeSha then
    { outcome := Except.ok { commitSha := currentCommitSha, treeSha := baseTreeSha }
      createdCommits := [] }
  else
    let newCommitSha := api.commitSha message newTreeSha currentCommitSha
    match api.updateRef branch newCommitSha with
    | none =>
      { outcome := Except.ok { commitSha := newCommitSha, treeSha := newTreeSha }
        createdCommits := [newCommitSha] }
    | some e =>
      { outcome := Except.error e, createdCommits := [newCommitSha] }

/-- Does the hay contain the needle as a contiguous substring? -/
def containsSub (needle hay : List Char) : Bool :=
  hay.tails.any (fun t => needle.isPrefixOf t)

/-- `error.message.includes('Update is not a fast forward')`. -/
def isNotFastForwardMsg (msg : String) : Bool :=
  containsSub "Update is not a fast forward".data msg.data

/-- Result of a whole `createBatchCommit` run: the returned value or thrown
    error, every commit sha created along the way, and the backoff delays
    slept (in ms). -/
structure BatchRun where
  outcome : Except String CommitResult
  createdCommits : List String
  delays : List Nat
deriving Repr

/-- The retry loop of `createBatchCommit`.  `remaining + attempt` is the
    attempt budget `maxRetries`; the loop guard `attempt < maxRetries` is
    `remaining > 0` and `attempt < maxRetries - 1` is `remaining > 1`. -/
def createBatchCommitGo (api : Nat → GitApi) (branch message : String)
    (changes : List BatchFileChange) : Nat → Nat → BatchRun
  | 0, _ =>
    { outcome := Except.error "Batch commit failed after maximum retries"
      createdCommits := [], delays := [] }
  | remaining + 1, attempt =>
    let att := batchAttempt (api attempt) branch message changes
    match att.outcome with
    | Except.ok r =>
      { outcome := Except.ok r, createdCommits := att.createdCommits, delays := [] }
    | Except.error e =>
      if isNotFastForwardMsg e ∧ 0 < remaining then
        let rest := createBatchCommitGo api branch message changes remaining (attempt + 1)
        { outcome := rest.outcome
          createdCommits := att.createdCommits ++ rest.createdCommits
          delays := 500 * (attempt + 1) :: rest.delays }
      else
        { outcome := Except.error e, createdCommits := att.createdCommits, delays := [] }

/-- `createBatchCommit` with attempt budget `maxRetries` (default 3). -/
def createBatchCommit (api : Nat → GitApi) (branch message : String)
    (changes : List BatchFileChange) (maxRetries : Nat) : BatchRun :=
  createBatchCommitGo api branch message changes maxRetries 0

/-! ## Concrete scenarios used by counterexamples and witnesses -/

/-- A local file whose content is `"hello\n"`. -/
def cex1Local : LocalFileEntry :=
  { path := "hello.md", hash := hashContent "hello\n", modified := 111, size := 6,
    isBinary := false }

/-- The remote copy of the same file: its sha is the git blob hash of the
    identical content, so both sides' address hashes agree. -/
def cex1Remote : RemoteFileEntry :=
  { path := "hello.md", sha := computeGitBlobSha "hello\n", size := some 6 }

/-- A local file whose content is `"a\n"`. -/
def cex3Local : LocalFileEntry :=
  { path := "a.md", hash := hashContent "a\n", modified := 111, size := 2, isBinary := false }

/-- A remote file whose blob is the content `"b\n"`: its address hash
    differs from the local side's. -/
def cex3Remote : RemoteFileEntry :=
  { path := "a.md", sha := computeGitBlobSha "b\n", size := some 2 }

/-- A baseline agreeing with both sides of the C3 scenario. -/
def cex3State : PersistedSyncState :=
  { lastSyncTime := 0
    lastCommitSha := "c0"
    fileHashes := [("a.md", hashContent "a\n")]
    fileShas := [("a.md", computeGitBlobSha "b\n")] }

/-- A remote file that the baseline also records locally: deleting it
    locally makes it a remote-only `deleted` change. -/
def cex2Remote : RemoteFileEntry := { path := "gone.md", sha := "abc123", size := some 4 }

/-- Baseline of the C2 scenario. -/
def cex2State : PersistedSyncState :=
  { lastSyncTime := 0
    lastCommitSha := "c0"
    fileHashes := [("gone.md", "cafebabe")]
    fileShas := [("gone.md", "abc123")] }

/-- A remote whose `createTree` result always equals the base tree. -/
def noopApi : GitApi :=
  { refSha := fun _ => "C0"
    commitTree := fun _ => "T0"
    blobSha := fun _ => "B0"
    treeSha := fun t _ => t
    commitSha := fun _ _ _ => "C1"
    updateRef := fun _ _ => none }

/-- A remote that always rejects the ref update as non-fast-forward. -/
def nonFFApi : GitApi :=
  { refSha := fun _ => "C0"
    commitTree := fun _ => "T0"
    blobSha := fun _ => "B0"
    treeSha := fun _ _ => "T1"
    commitSha := fun _ _ _ => "C1"
    updateRef := fun _ _ => some "Update is not a fast forward" }

/-- One batch change used in batch-commit scenarios. -/
def sampleChange : BatchFileChange :=
  { path := "a.md", action := BatchAction.update, content := some "x",
    encoding := some "base64" }

/-! ## Helper lemmas -/

theorem lookup_mem_keys {β : Type} {l : List (String × β)} {k : String} {v : β}
    (h : l.lookup k = some v) : k ∈ l.map (fun p => p.1) := by
  obtain ⟨l₁, l₂, rfl, -⟩ := List.lookup_eq_some_iff.mp h
  simp

theorem mem_dedupKeepFirst {x : String} :
    ∀ {l seen : List String}, x ∈ l → seen.contains x = false →
      x ∈ dedupKeepFirst seen l := by
  intro l
  induction l with
  | nil => intro seen h _; simp at h
  | cons y ys ih =>
    intro seen hx hseen
    rw [dedupKeepFirst]
    by_cases hy : seen.contains y
    · rw [if_pos hy]
      rcases List.mem_cons.mp hx with rfl | hx'
      · rw [hseen] at hy; exact absurd hy (by simp)
      · exact ih hx' hseen
    · rw [if_neg hy]
      by_cases hxy : x = y
      · subst hxy; exact List.mem_cons_self x _
      · have hx' : x ∈ ys := by
          rcases List.mem_cons.mp hx with h | h
          · exact absurd h hxy
          · exact h
        refine List.mem_cons_of_mem _ (ih hx' ?_)
        simp only [List.contains_cons, Bool.or_eq_false_iff]
        exact ⟨beq_false_of_ne hxy, hseen⟩

/-- The `FileSyncState` produced for a path present in both indexes. -/
theorem syncStateFor_both {localIndex : List (String × LocalFileEntry)}
    {remoteIndex : List (String × RemoteFileEntry)}
    {st : Option PersistedSyncState} {path : String}
    {l : LocalFileEntry} {r : RemoteFileEntry}
    (hl : localIndex.lookup path = some l) (hr : remoteIndex.lookup path = some r) :
    syncStateFor localIndex remoteIndex st path = some
      { path := path
        localHash := jsOrNullStr (some l.hash)
        remoteHash := jsOrNullStr (some r.sha)
        remoteSha := jsOrNullStr (some r.sha)
        status :=
          if changedSince l.hash (st.bind (fun s => s.fileHashes.lookup path)) &&
              changedSince r.sha (st.bind (fun s => s.fileShas.lookup path)) then
            FileChangeStatus.conflict
          else if changedSince l.hash (st.bind (fun s => s.fileHashes.lookup path)) then
            FileChangeStatus.modified
          else if changedSince r.sha (st.bind (fun s => s.fileShas.lookup path)) then
            FileChangeStatus.modified
          else FileChangeStatus.unchanged
        localModified := jsOrNullNat (some l.modified)
        remoteModified := none } := by
  unfold syncStateFor
  rw [hl, hr]
  rfl

/-- Membership in `compareIndexes` for any path of either key set whose
    loop body produces an entry. -/
theorem mem_compareIndexes_of_syncStateFor {localIndex : List (String × LocalFileEntry)}
    {remoteIndex : List (String × RemoteFileEntry)}
    {st : Option PersistedSyncState} {path : String} {e : FileSyncState}
    (hpath : path ∈ localIndex.map (fun p => p.1) ++ remoteIndex.map (fun p => p.1))
    (he : syncStateFor localIndex remoteIndex st path = some e) :
    e ∈ compareIndexes localIndex remoteIndex st := by
  unfold compareIndexes
  exact List.mem_filterMap.mpr ⟨path, mem_dedupKeepFirst hpath rfl, he⟩

/-! ## Claims -/

/-- C4: the address hash (git blob SHA-1 over `"blob " + byteLength + NUL +
    content` with CRLF and lone CR normalized to LF) reproduces git's
    well-known constants for the empty blob and for `"hello\n"`, and is
    line-ending insensitive. -/
theorem computeGitBlobSha_fixed_points :
    computeGitBlobSha "" = "e69de29bb2d1d6434b8b29ae775ad8c2e48c5391" ∧
    computeGitBlobSha "hello\n" = "ce013625030ba8dba906f756967f9e9ca394464a" ∧
    computeGitBlobSha "line1\r\nline2" = computeGitBlobSha "line1\nline2" := by
  refine ⟨by decide, by decide, by decide⟩

/-- C7: the glob matcher treats `*` as any run without `/`, `?` as one
    non-`/` character and `**` as any run including `/`, witnessed on the
    four specified examples. -/
theorem matchesIgnorePattern_semantics :
    matchesIgnorePattern "file.md" ["*.md"] = true ∧
    matchesIgnorePattern "file.txt" ["*.md"] = false ∧
    matchesIgnorePattern ".obsidian/x" [".obsidian/**"] = true ∧
    matchesIgnorePattern "a/b/file.md" ["**/file.md"] = true := by
  decide

/-- C10: every `SyncResult` assembled by `sync` satisfies
    `filesProcessed = filesPulled + filesPushed + filesDeleted`, for every
    direction, index pair, baseline, path filter and pull/push outcome. -/
theorem syncResult_filesProcessed_eq_sum (direction : SyncDirection)
    (localIndex : List (String × LocalFileEntry))
    (remoteIndex : List (String × RemoteFileEntry))
    (lastSyncState : Option PersistedSyncState)
    (paths : Option (List String))
    (pullRun : List FileSyncState → List FileSyncResult)
    (pushRun : List FileSyncState → SyncResult) :
    (syncAssemble direction localIndex remoteIndex lastSyncState paths
        pullRun pushRun).filesProcessed =
      (syncAssemble direction localIndex remoteIndex lastSyncState paths
        pullRun pushRun).filesPulled +
      (syncAssemble direction localIndex remoteIndex lastSyncState paths
        pullRun pushRun).filesPushed +
      (syncAssemble direction localIndex remoteIndex lastSyncState paths
        pullRun pushRun).filesDeleted := rfl

/-- C1 counterexample: a path on both sides with equal address hashes
    (the remote sha is the git blob hash of the local content) but no
    baseline is classified `conflict`, not `unchanged`, and the entry stays
    in the returned list — `compareIndexes` never compares address hashes
    and never drops entries. -/
theorem compareIndexes_drops_unchanged_refuted :
    cex1Remote.sha = computeGitBlobSha "hello\n" ∧
    (compareIndexes [("hello.md", cex1Local)] [("hello.md", cex1Remote)] none).map
        (fun e => (e.path, e.status)) = [("hello.md", FileChangeStatus.conflict)] ∧
    FileChangeStatus.conflict ≠ FileChangeStatus.unchanged := by
  refine ⟨rfl, by decide, by decide⟩

/-- C3 counterexample: both sides match the baseline (local content hash
    and remote sha), the two sides' address hashes differ, yet the status
    is `unchanged`, not the claimed `modified`. -/
theorem compareIndexes_neither_changed_refuted :
    (compareIndexes [("a.md", cex3Local)] [("a.md", cex3Remote)] (some cex3State)).map
        (fun e => (e.path, e.status)) = [("a.md", FileChangeStatus.unchanged)] ∧
    cex3Local.hash = hashContent "a\n" ∧
    cex3State.fileHashes.lookup "a.md" = some (hashContent "a\n") ∧
    cex3State.fileShas.lookup "a.md" = some cex3Remote.sha ∧
    computeGitBlobSha "a\n" ≠ cex3Remote.sha ∧
    FileChangeStatus.unchanged ≠ FileChangeStatus.modified := by
  decide

/-- C2 counterexample: a remote-only change classified `deleted` (the file
    was deleted locally) is never placed in the push set, even when the
    direction allows push — the filter excludes every remote-only path. -/
theorem toPush_remote_deletion_refuted :
    (compareIndexes [] [("gone.md", cex2Remote)] (some cex2State)).map
        (fun e => (e.path, e.status)) = [("gone.md", FileChangeStatus.deleted)] ∧
    (compareIndexes [] [("gone.md", cex2Remote)] (some cex2State)).filter
        (toPushFilter SyncDirection.sync [] [("gone.md", cex2Remote)] (some cex2State)) =
      [] := by
  decide

/-- C8 counterexample: the path `"/a"` under subfolder `"sub"` does not
    round-trip — `toRemotePath` normalizes the leading slash away, so
    `toLocalPath` returns `"a"`, not `"/a"`. -/
theorem toLocalPath_roundtrip_refuted :
    toLocalPath "sub" (toRemotePath "sub" "/a") = "a" ∧ "a" ≠ "/a" := by
  decide

/-- C1 (amended): a path present in both indexes is classified `unchanged`
    iff neither side counts as changed against the baseline (non-empty
    baseline entries matching the local content hash and the remote sha);
    the entry — also when unchanged — is present in the returned list.
    Address hashes play no role. -/
theorem compareIndexes_both_present_unchanged_iff
    (localIndex : List (String × LocalFileEntry))
    (remoteIndex : List (String × RemoteFileEntry))
    (st : Option PersistedSyncState) (path : String)
    (l : LocalFileEntry) (r : RemoteFileEntry)
    (hl : localIndex.lookup path = some l)
    (hr : remoteIndex.lookup path = some r) :
    ∃ entry ∈ compareIndexes localIndex remoteIndex st,
      entry.path = path ∧
      (entry.status = FileChangeStatus.unchanged ↔
        changedSince l.hash (st.bind (fun s => s.fileHashes.lookup path)) = false ∧
        changedSince r.sha (st.bind (fun s => s.fileShas.lookup path)) = false) := by
  have he := @syncStateFor_both _ _ st _ _ _ hl hr
  refine ⟨_, mem_compareIndexes_of_syncStateFor
    (List.mem_append_left _ (lookup_mem_keys hl)) he, rfl, ?_⟩
  cases hb1 : changedSince l.hash (st.bind (fun s => s.fileHashes.lookup path)) <;>
    cases hb2 : changedSince r.sha (st.bind (fun s => s.fileShas.lookup path)) <;>
      simp [hb1, hb2]

/-- C1 witness: the characterization at a concrete two-sided index with a
    matching baseline. -/
theorem compareIndexes_both_present_unchanged_iff_witness :
    ∃ entry ∈ compareIndexes [("a.md", cex3Local)] [("a.md", cex3Remote)] (some cex3State),
      entry.path = "a.md" ∧
      (entry.status = FileChangeStatus.unchanged ↔
        changedSince cex3Local.hash
          ((some cex3State).bind (fun s => s.fileHashes.lookup "a.md")) = false ∧
        changedSince cex3Remote.sha
          ((some cex3State).bind (fun s => s.fileShas.lookup "a.md")) = false) :=
  compareIndexes_both_present_unchanged_iff _ _ _ _ _ _ rfl rfl

/-- C3 (amended): when the baseline holds non-empty entries matching both
    the local content hash and the remote sha, the path is classified
    `unchanged` (and kept in the output), even when the two sides' address
    hashes differ — not `modified`. -/
theorem compareIndexes_neither_changed_is_unchanged
    (localIndex : List (String × LocalFileEntry))
    (remoteIndex : List (String × RemoteFileEntry))
    (st : Option PersistedSyncState) (path : String)
    (l : LocalFileEntry) (r : RemoteFileEntry) (lh ls : String)
    (hl : localIndex.lookup path = some l)
    (hr : remoteIndex.lookup path = some r)
    (hlh : st.bind (fun s => s.fileHashes.lookup path) = some lh)
    (hlh0 : lh ≠ "") (hleq : l.hash = lh)
    (hls : st.bind (fun s => s.fileShas.lookup path) = some ls)
    (hls0 : ls ≠ "") (hreq : r.sha = ls) :
    ∃ entry ∈ compareIndexes localIndex remoteIndex st,
      entry.path = path ∧ entry.status = FileChangeStatus.unchanged := by
  have he := @syncStateFor_both _ _ st _ _ _ hl hr
  refine ⟨_, mem_compareIndexes_of_syncStateFor
    (List.mem_append_left _ (lookup_mem_keys hl)) he, rfl, ?_⟩
  have hb1 : changedSince l.hash (st.bind (fun s => s.fileHashes.lookup path)) = false := by
    rw [hlh]; simp [changedSince, hlh0, hleq]
  have hb2 : changedSince r.sha (st.bind (fun s => s.fileShas.lookup path)) = false := by
    rw [hls]; simp [changedSince, hls0, hreq]
  simp [hb1, hb2]

/-- C3 witness: the amended classification at the concrete scenario whose
    address hashes differ. -/
theorem compareIndexes_neither_changed_is_unchanged_witness :
    ∃ entry ∈ compareIndexes [("a.md", cex3Local)] [("a.md", cex3Remote)] (some cex3State),
      entry.path = "a.md" ∧ entry.status = FileChangeStatus.unchanged :=
  compareIndexes_neither_changed_is_unchanged _ _ _ _ _ _
    (hashContent "a\n") (computeGitBlobSha "b\n")
    rfl rfl rfl (by decide) rfl rfl (by decide) rfl

/-- C2 (amended): a change is in the push set iff its status is not
    `conflict`, the direction is not `pull`, and either the file exists
    only locally (any status), or it exists on both sides with a non-empty
    baseline content-hash entry differing from the current local hash;
    remote-only changes are never pushed. -/
theorem toPushFilter_iff (direction : SyncDirection)
    (localIndex : List (String × LocalFileEntry))
    (remoteIndex : List (String × RemoteFileEntry))
    (st : Option PersistedSyncState) (c : FileSyncState) :
    toPushFilter direction localIndex remoteIndex st c = true ↔
      c.status ≠ FileChangeStatus.conflict ∧ direction ≠ SyncDirection.pull ∧
        ((∃ l, localIndex.lookup c.path = some l ∧ remoteIndex.lookup c.path = none) ∨
         (∃ l r s, localIndex.lookup c.path = some l ∧ remoteIndex.lookup c.path = some r ∧
            st.bind (fun x => x.fileHashes.lookup c.path) = some s ∧ s ≠ "" ∧
            l.hash ≠ s)) := by
  unfold toPushFilter
  by_cases h1 : c.status = FileChangeStatus.conflict
  · simp [h1]
  · rw [if_neg h1]
    by_cases h2 : direction = SyncDirection.pull
    · simp [h1, h2]
    · rw [if_neg h2]
      cases hl : localIndex.lookup c.path with
      | none =>
        cases hr : remoteIndex.lookup c.path with
        | none =>
          cases hh : st.bind (fun x => x.fileHashes.lookup c.path) with
          | none => simp [h1, h2]
          | some s => simp [h1, h2]
        | some r => simp [h1, h2]
      | some l =>
        cases hr : remoteIndex.lookup c.path with
        | none => simp [h1, h2]
        | some r =>
          cases hh : st.bind (fun x => x.fileHashes.lookup c.path) with
          | none => simp [h1, h2]
          | some s =>
            by_cases hs : s = ""
            · simp [h1, h2, hs]
            · by_cases hd : l.hash = s
              · simp [h1, h2, hs, hd]
              · simp [h1, h2, hs, hd]

/-- C5: for a non-empty batch, if the tree built from the batch on top of
    the current root tree is identical to that root tree, no commit is
    created and the returned commit id is the branch's prior head. -/
theorem createBatchCommit_noop (api : Nat → GitApi) (branch message : String)
    (changes : List BatchFileChange) (hne : changes ≠ [])
    (htree : (api 0).treeSha ((api 0).commitTree ((api 0).refSha branch))
        (batchTreeItems (api 0) changes) = (api 0).commitTree ((api 0).refSha branch)) :
    (createBatchCommit api branch message changes 3).outcome =
      Except.ok { commitSha := (api 0).refSha branch
                  treeSha := (api 0).commitTree ((api 0).refSha branch) } ∧
    (createBatchCommit api branch message changes 3).createdCommits = [] := by
  have hatt : batchAttempt (api 0) branch message changes =
      { outcome := Except.ok { commitSha := (api 0).refSha branch
                               treeSha := (api 0).commitTree ((api 0).refSha branch) }
        createdCommits := [] } := by
    unfold batchAttempt
    rw [if_pos htree]
  unfold createBatchCommit createBatchCommitGo
  rw [hatt]
  exact ⟨rfl, rfl⟩

/-- C5 witness: the no-op batch against a remote whose `createTree` is the
    identity on the base tree. -/
theorem createBatchCommit_noop_witness :
    ([sampleChange] ≠ ([] : List BatchFileChange)) ∧
    (createBatchCommit (fun _ => noopApi) "main" "m" [sampleChange] 3).outcome =
      Except.ok { commitSha := "C0", treeSha := "T0" } ∧
    (createBatchCommit (fun _ => noopApi) "main" "m" [sampleChange] 3).createdCommits = [] := by
  have h := createBatchCommit_noop (fun _ => noopApi) "main" "m" [sampleChange]
    (by simp) rfl
  exact ⟨by simp, h.1, h.2⟩

/-- C6: with the default budget of 3 attempts, non-fast-forward failures
    are retried from a fresh head with increasing backoff (500 ms, then
    1000 ms) until the attempts are exhausted, upon which the failure
    propagates as the batch-commit error; any other error propagates
    immediately with no retry and no delay. -/
theorem createBatchCommit_retry_policy (api : Nat → GitApi) (branch message : String)
    (changes : List BatchFileChange) :
    (∀ e : String, isNotFastForwardMsg e = true →
      (∀ i, i < 3 → (batchAttempt (api i) branch message changes).outcome = Except.error e) →
      (createBatchCommit api branch message changes 3).outcome = Except.error e ∧
        (createBatchCommit api branch message changes 3).delays = [500, 1000]) ∧
    (∀ e : String, isNotFastForwardMsg e = false →
      (batchAttempt (api 0) branch message changes).outcome = Except.error e →
      (createBatchCommit api branch message changes 3).outcome = Except.error e ∧
        (createBatchCommit api branch message changes 3).delays = []) := by
  constructor
  · intro e hff hall
    have h0 := hall 0 (by norm_num)
    have h1 := hall 1 (by norm_num)
    have h2 := hall 2 (by norm_num)
    constructor <;>
      simp [createBatchCommit, createBatchCommitGo, h0, h1, h2, hff]
  · intro e hff h0
    constructor <;>
      simp [createBatchCommit, createBatchCommitGo, h0, hff]

/-- C6 witness: a remote that always rejects with a non-fast-forward
    message exhausts the three attempts with backoffs 500 and 1000 and the
    failure propagates. -/
theorem createBatchCommit_retry_policy_witness :
    (createBatchCommit (fun _ => nonFFApi) "main" "m" [sampleChange] 3).outcome =
      Except.error "Update is not a fast forward" ∧
    (createBatchCommit (fun _ => nonFFApi) "main" "m" [sampleChange] 3).delays =
      [500, 1000] :=
  (createBatchCommit_retry_policy (fun _ => nonFFApi) "main" "m" [sampleChange]).1
    "Update is not a fast forward" (by decide) (fun i _ => rfl)

/-- On identical line lists the backtracker only ever takes the
    equal-lines branch, so every produced line is `unchanged`. -/
theorem backtrackGo_self_unchanged (dp : Nat → Nat → Nat) (L : List String) :
    ∀ (fuel i ol nl : Nat) (line : DiffLine),
      line ∈ backtrackGo dp L L fuel i i ol nl → line.type = DiffLineType.unchanged := by
  intro fuel
  induction fuel with
  | zero => intro i ol nl line h; simp [backtrackGo] at h
  | succ f ih =>
    intro i ol nl line h
    rcases Nat.eq_zero_or_pos i with hi | hi
    · subst hi
      simp [backtrackGo] at h
    · rw [backtrackGo] at h
      rw [if_neg (by omega : ¬(i = 0 ∧ i = 0))] at h
      rw [if_pos ⟨hi, hi, rfl⟩] at h
      rcases List.mem_append.mp h with h' | h'
      · exact ih _ _ _ _ h'
      · rw [List.mem_singleton.mp h']

/-- Feeding only `unchanged` lines never opens a hunk. -/
theorem foldl_hunkStep_unchanged (lines : List DiffLine) :
    (∀ l ∈ lines, l.type = DiffLineType.unchanged) →
    ∀ buf : List DiffLine, ∃ buf',
      lines.foldl (hunkStep 3) ⟨[], none, buf⟩ = ⟨[], none, buf'⟩ := by
  induction lines with
  | nil => intro _ buf; exact ⟨buf, rfl⟩
  | cons a t ih =>
    intro h buf
    have ha : a.type = DiffLineType.unchanged := h a (List.mem_cons_self _ _)
    have hstep : hunkStep 3 ⟨[], none, buf⟩ a = ⟨[], none, buf ++ [a]⟩ := by
      unfold hunkStep
      rw [if_pos ha]
    rw [List.foldl_cons, hstep]
    exact ih (fun l hl => h l (List.mem_cons_of_mem _ hl)) (buf ++ [a])

/-- `computeDiff(a, a)` yields no hunks and no changes, for every string. -/
theorem computeDiff_self (a : String) :
    (computeDiff a a).hunks = [] ∧ (computeDiff a a).hasChanges = false := by
  set L := splitLines a with hLdef
  have hall : ∀ l ∈ backtrackDiff (lcsDp L L) L L, l.type = DiffLineType.unchanged := by
    intro l hl
    unfold backtrackDiff at hl
    exact backtrackGo_self_unchanged _ _ _ _ _ _ l hl
  have hhunks : createHunks (backtrackDiff (lcsDp L L) L L) 3 = [] := by
    unfold createHunks
    obtain ⟨buf', hb⟩ := foldl_hunkStep_unchanged _ hall []
    rw [hb]
    rfl
  have hadd : (backtrackDiff (lcsDp L L) L L).filter
      (fun l => l.type = DiffLineType.added) = [] := by
    rw [List.filter_eq_nil_iff]
    intro l hl
    simp [hall l hl]
  have hdel : (backtrackDiff (lcsDp L L) L L).filter
      (fun l => l.type = DiffLineType.removed) = [] := by
    rw [List.filter_eq_nil_iff]
    intro l hl
    simp [hall l hl]
  refine ⟨hhunks, ?_⟩
  have hchg : (computeDiff a a).hasChanges =
      (decide (((backtrackDiff (lcsDp L L) L L).filter
          (fun l => l.type = DiffLineType.added)).length > 0) ||
       decide (((backtrackDiff (lcsDp L L) L L).filter
          (fun l => l.type = DiffLineType.removed)).length > 0)) := rfl
  rw [hchg, hadd, hdel]
  rfl

/-- C9: `computeDiff(a, a)` yields zero hunks and `hasChanges == false`
    for every string `a`, and diffing `"l1\nl2"` against `"l1\nl2\nl3"`
    yields one addition, zero deletions and exactly one added line whose
    content is `"l3"`. -/
theorem computeDiff_correctness :
    (∀ a : String, (computeDiff a a).hunks = [] ∧ (computeDiff a a).hasChanges = false) ∧
    (computeDiff "l1\nl2" "l1\nl2\nl3").additions = 1 ∧
    (computeDiff "l1\nl2" "l1\nl2\nl3").deletions = 0 ∧
    ((getAllDiffLines (computeDiff "l1\nl2" "l1\nl2\nl3")).filter
        (fun l => l.type = DiffLineType.added)).map (fun l => l.content) = ["l3"] :=
  ⟨computeDiff_self, by decide, by decide, by decide⟩

/-! ## Properties of `normalizePath`, towards the C8 round trip -/

theorem collapseSlashes_sublist : ∀ l : List Char, List.Sublist (collapseSlashes l) l := by
  intro l
  induction l with
  | nil => simp [collapseSlashes]
  | cons a t ih =>
    cases t with
    | nil => simp [collapseSlashes]
    | cons b rest =>
      rw [collapseSlashes]
      by_cases h : a = '/' ∧ b = '/'
      · rw [if_pos h]
        exact ih.trans (List.sublist_cons_self a _)
      · rw [if_neg h]
        exact ih.cons₂ a

theorem stripLeadingSlash_sublist (l : List Char) : List.Sublist (stripLeadingSlash l) l := by
  cases l with
  | nil => simp [stripLeadingSlash]
  | cons c rest =>
    rw [stripLeadingSlash]
    by_cases h : c = '/'
    · rw [if_pos h]
      exact List.sublist_cons_self c rest
    · rw [if_neg h]

theorem stripTrailingSlash_sublist (l : List Char) : List.Sublist (stripTrailingSlash l) l := by
  unfold stripTrailingSlash
  by_cases h : l.getLast? = some '/'
  · rw [if_pos h]
    exact List.dropLast_sublist l
  · rw [if_neg h]

theorem collapseSlashes_eq_self_iff (l : List Char) :
    collapseSlashes l = l ↔ List.Chain' (fun x y => ¬(x = '/' ∧ y = '/')) l := by
  induction l with
  | nil => simp [collapseSlashes]
  | cons a t ih =>
    cases t with
    | nil => simp [collapseSlashes]
    | cons b rest =>
      rw [collapseSlashes, List.chain'_cons]
      by_cases h : a = '/' ∧ b = '/'
      · rw [if_pos h]
        constructor
        · intro heq
          exfalso
          have hlen := (collapseSlashes_sublist (b :: rest)).length_le
          rw [heq] at hlen
          simp at hlen
        · rintro ⟨hR, -⟩
          exact absurd h hR
      · rw [if_neg h]
        constructor
        · intro heq
          have htail : collapseSlashes (b :: rest) = b :: rest := by
            injection heq
          exact ⟨h, ih.mp htail⟩
        · rintro ⟨-, hc⟩
          rw [ih.mpr hc]

theorem stripLeadingSlash_eq_self_iff (l : List Char) :
    stripLeadingSlash l = l ↔ l.head? ≠ some '/' := by
  cases l with
  | nil => simp [stripLeadingSlash]
  | cons c rest =>
    rw [stripLeadingSlash]
    by_cases h : c = '/'
    · subst h
      rw [if_pos rfl]
      constructor
      · intro heq
        exact absurd (congrArg List.length heq) (by simp)
      · intro hne
        exact absurd rfl hne
    · simp [h]

theorem stripTrailingSlash_eq_self_iff (l : List Char) :
    stripTrailingSlash l = l ↔ l.getLast? ≠ some '/' := by
  unfold stripTrailingSlash
  by_cases h : l.getLast? = some '/'
  · rw [if_pos h]
    constructor
    · intro heq
      exfalso
      have hl : l ≠ [] := by
        intro hnil
        rw [hnil] at h
        simp at h
      have hlen := congrArg List.length heq
      rw [List.length_dropLast] at hlen
      have hpos : 0 < l.length := List.length_pos.mpr hl
      omega
    · intro hne
      exact absurd h hne
  · rw [if_neg h]
    simp [h]

theorem map_slash_eq_self_iff (l : List Char) :
    l.map (fun c => if c = '\\' then '/' else c) = l ↔ '\\' ∉ l := by
  induction l with
  | nil => simp
  | cons c t ih =>
    simp only [List.map_cons, List.mem_cons]
    constructor
    · intro heq
      injection heq with h1 h2
      intro hmem
      rcases hmem with rfl | hmem
      · rw [if_pos rfl] at h1
        exact absurd h1 (by decide)
      · exact (ih.mp h2) hmem
    · intro hni
      have hc : c ≠ '\\' := fun hh => hni (Or.inl hh.symm)
      rw [if_neg hc, ih.mpr (fun hh => hni (Or.inr hh))]

/-- A fixed point of `normalizeChars` is a fixed point of each stage. -/
theorem normalizeChars_eq_self_parts {l : List Char} (h : normalizeChars l = l) :
    l.map (fun c => if c = '\\' then '/' else c) = l ∧
    collapseSlashes l = l ∧ stripLeadingSlash l = l ∧ stripTrailingSlash l = l := by
  have hs : List.Sublist (normalizeChars l) (l.map (fun c => if c = '\\' then '/' else c)) :=
    (stripTrailingSlash_sublist _).trans
      ((stripLeadingSlash_sublist _).trans (collapseSlashes_sublist _))
  have hmap : l.map (fun c => if c = '\\' then '/' else c) = l := by
    have hsub : List.Sublist l (l.map (fun c => if c = '\\' then '/' else c)) := by
      have h' := hs
      rw [h] at h'
      exact h'
    exact (hsub.eq_of_length (List.length_map _ _).symm).symm
  have h2 : stripTrailingSlash (stripLeadingSlash (collapseSlashes l)) = l := by
    have h' := h
    unfold normalizeChars at h'
    rw [hmap] at h'
    exact h'
  have hcoll : collapseSlashes l = l := by
    have hsub := collapseSlashes_sublist l
    apply hsub.eq_of_length
    have l1 := (stripTrailingSlash_sublist (stripLeadingSlash (collapseSlashes l))).length_le
    have l2 := (stripLeadingSlash_sublist (collapseSlashes l)).length_le
    have l3 := hsub.length_le
    have l4 := congrArg List.length h2
    omega
  have hstripL : stripLeadingSlash l = l := by
    rw [hcoll] at h2
    have hsub := stripLeadingSlash_sublist l
    apply hsub.eq_of_length
    have l1 := (stripTrailingSlash_sublist (stripLeadingSlash l)).length_le
    have l2 := hsub.length_le
    have l4 := congrArg List.length h2
    omega
  have hstripT : stripTrailingSlash l = l := by
    rw [hcoll, hstripL] at h2
    exact h2
  exact ⟨hmap, hcoll, hstripL, hstripT⟩

/-- Joining two non-empty normalized paths with `/` is again normalized. -/
theorem normalizeChars_append_slash {a b : List Char}
    (ha : normalizeChars a = a) (hb : normalizeChars b = b)
    (hane : a ≠ []) (hbne : b ≠ []) :
    normalizeChars (a ++ '/' :: b) = a ++ '/' :: b := by
  obtain ⟨hmapa, hcolla, hla, hta⟩ := normalizeChars_eq_self_parts ha
  obtain ⟨hmapb, hcollb, hlb, htb⟩ := normalizeChars_eq_self_parts hb
  have hheada : a.head? ≠ some '/' := (stripLeadingSlash_eq_self_iff a).mp hla
  have hlasta : a.getLast? ≠ some '/' := (stripTrailingSlash_eq_self_iff a).mp hta
  have hheadb : b.head? ≠ some '/' := (stripLeadingSlash_eq_self_iff b).mp hlb
  have hlastb : b.getLast? ≠ some '/' := (stripTrailingSlash_eq_self_iff b).mp htb
  have hchaina := (collapseSlashes_eq_self_iff a).mp hcolla
  have hchainb := (collapseSlashes_eq_self_iff b).mp hcollb
  have hnba := (map_slash_eq_self_iff a).mp hmapa
  have hnbb := (map_slash_eq_self_iff b).mp hmapb
  unfold normalizeChars
  have hmap : (a ++ '/' :: b).map (fun c => if c = '\\' then '/' else c) = a ++ '/' :: b := by
    apply (map_slash_eq_self_iff _).mpr
    intro hmem
    rcases List.mem_append.mp hmem with h | h
    · exact hnba h
    · rcases List.mem_cons.mp h with h | h
      · exact absurd h (by decide)
      · exact hnbb h
  have hchain : List.Chain' (fun x y => ¬(x = '/' ∧ y = '/')) (a ++ '/' :: b) := by
    apply List.chain'_append.mpr
    refine ⟨hchaina, ?_, ?_⟩
    · apply List.chain'_cons'.mpr
      refine ⟨?_, hchainb⟩
      intro y hy
      rintro ⟨-, rfl⟩
      exact hheadb (Option.mem_def.mp hy)
    · intro x hx y hy
      simp only [List.head?_cons, Option.mem_def, Option.some.injEq] at hy
      subst hy
      rintro ⟨hx', -⟩
      apply hlasta
      rw [← hx']
      exact Option.mem_def.mp hx
  rw [hmap, (collapseSlashes_eq_self_iff _).mpr hchain]
  have hhead : (a ++ '/' :: b).head? ≠ some '/' := by
    cases a with
    | nil => exact absurd rfl hane
    | cons x xs =>
      simp only [List.cons_append, List.head?_cons]
      intro hcontra
      exact hheada (by simpa using hcontra)
  rw [(stripLeadingSlash_eq_self_iff _).mpr hhead]
  have hlast : (a ++ '/' :: b).getLast? ≠ some '/' := by
    have hsplit : (a ++ '/' :: b).getLast? = b.getLast? := by
      rw [show a ++ '/' :: b = (a ++ ['/']) ++ b by simp]
      rw [List.getLast?_append_of_ne_nil _ hbne]
    rw [hsplit]
    exact hlastb
  rw [(stripTrailingSlash_eq_self_iff _).mpr hlast]

/-- C8 (amended): `toLocalPath(toRemotePath(p, sub), sub) == p` whenever
    `p` and `sub` are normalized paths (fixed points of `normalizePath`)
    and `p` is non-empty (or `sub` is empty); `toRemotePath` normalizes
    its result, so non-normalized inputs such as `"/a"` need not round
    trip. -/
theorem toRemotePath_toLocalPath_roundtrip (sub p : String)
    (hs : normalizePath sub = sub) (hp : normalizePath p = p)
    (h : sub = "" ∨ p ≠ "") :
    toLocalPath sub (toRemotePath sub p) = p := by
  by_cases hsub : sub = ""
  · subst hsub
    unfold toRemotePath toLocalPath
    simp
  · have hpne : p ≠ "" := h.resolve_left hsub
    have hsd : normalizeChars sub.data = sub.data := congrArg String.data hs
    have hpd : normalizeChars p.data = p.data := congrArg String.data hp
    have hsdne : sub.data ≠ [] := by
      intro hd
      apply hsub
      cases sub with
      | mk d =>
        simp only at hd
        rw [hd]
    have hpdne : p.data ≠ [] := by
      intro hd
      apply hpne
      cases p with
      | mk d =>
        simp only at hd
        rw [hd]
    have key := normalizeChars_append_slash hsd hpd hsdne hpdne
    have hdata : (sub ++ "/" ++ p).data = sub.data ++ '/' :: p.data := by
      simp [String.data_append]
    unfold toRemotePath
    rw [if_pos hsub]
    have hnorm : normalizePath (sub ++ "/" ++ p) = sub ++ "/" ++ p := by
      unfold normalizePath
      rw [hdata, key, ← hdata]
    rw [hnorm]
    unfold toLocalPath
    have hpref : (sub ++ "/").data.isPrefixOf (sub ++ "/" ++ p).data = true := by
      rw [List.isPrefixOf_iff_prefix]
      have e1 : (sub ++ "/").data = sub.data ++ ['/'] := by simp [String.data_append]
      have e2 : (sub ++ "/" ++ p).data = (sub.data ++ ['/']) ++ p.data := by
        rw [hdata]
        simp
      rw [e1, e2]
      exact List.prefix_append _ _
    rw [if_pos ⟨hsub, hpref⟩]
    have hdrop : (sub ++ "/" ++ p).data.drop (sub.data.length + 1) = p.data := by
      rw [hdata]
      rw [show sub.data ++ '/' :: p.data = (sub.data ++ ['/']) ++ p.data by simp]
      rw [show sub.data.length + 1 = (sub.data ++ ['/']).length by simp]
      exact List.drop_left _ _
    rw [hdrop]

/-- C8 witness: the round trip at a concrete normalized subfolder and
    path. -/
theorem toRemotePath_toLocalPath_roundtrip_witness :
    normalizePath "notes" = "notes" ∧ normalizePath "a.md" = "a.md" ∧
    ("notes" = "" ∨ "a.md" ≠ "") ∧
    toLocalPath "notes" (toRemotePath "notes" "a.md") = "a.md" :=
  ⟨by decide, by decide, Or.inr (by decide),
    toRemotePath_toLocalPath_roundtrip "notes" "a.md" (by decide) (by decide)
      (Or.inr (by decide))⟩

end ObsidianGitHub
